import Mathlib

/-!
# Verification of the ColorMixingGym environment (`cm_env.py`)

Shallow embedding of the simulation core of `cm_env.py`:
`SubtractiveModel`, `Paint`, and `ColorMixingEnv` (reset / step /
reward / observation).  Colors are triples of Python integers (ℤ);
amounts are exact rationals (ℚ) standing for the Python numbers.
Python's in-place mutation of `Paint` is modelled by explicit state
passing: `Paint.split` additionally returns the post-call value of the
receiver, and `ColorMixingEnv.step` threads the beaker list through the
updates.  A Python `ZeroDivisionError` is modelled by `Option`:
`mix_colors` returns `none` exactly when the total amount is zero.
-/

/-- An RGB color triple; Python carries plain ints in the tuples. -/
structure Color where
  r : ℤ
  g : ℤ
  b : ℤ
deriving DecidableEq, Repr

/-- Python's `int(x)` applied to a (real-valued) quotient truncates
toward zero: floor for nonnegative arguments, ceiling for negative. -/
def intTrunc (q : ℚ) : ℤ :=
  if q < 0 then ⌈q⌉ else ⌊q⌋

/-- `SubtractiveModel._rgb_to_cmy`: complement each channel. -/
def rgb_to_cmy (c : Color) : Color :=
  ⟨255 - c.r, 255 - c.g, 255 - c.b⟩

/-- `SubtractiveModel._cmy_to_rgb`: complement each channel. -/
def cmy_to_rgb (c : Color) : Color :=
  ⟨255 - c.r, 255 - c.g, 255 - c.b⟩

/-- `Paint`: a color plus an amount (ml). -/
structure Paint where
  color : Color
  amount : ℚ
deriving DecidableEq, Repr

/-- `SubtractiveModel.mix_colors`: amount-weighted average of the two
complement (CMY) triples, each channel truncated to an integer, mapped
back to RGB.  Python divides by `total_amount` unguarded and raises
`ZeroDivisionError` when it is zero; that failure is `none` here. -/
def mix_colors (paint1 paint2 : Paint) : Option Color :=
  let cmy1 := rgb_to_cmy paint1.color
  let cmy2 := rgb_to_cmy paint2.color
  let total_amount := paint1.amount + paint2.amount
  if total_amount = 0 then none
  else some (cmy_to_rgb
    ⟨intTrunc ((cmy1.r * paint1.amount + cmy2.r * paint2.amount) / total_amount),
     intTrunc ((cmy1.g * paint1.amount + cmy2.g * paint2.amount) / total_amount),
     intTrunc ((cmy1.b * paint1.amount + cmy2.b * paint2.amount) / total_amount)⟩)

/-- `Paint.mix_with`: new Paint with summed amount and mixed color
(`none` when the color mix divides by zero). -/
def Paint.mix_with (p other : Paint) : Option Paint :=
  (mix_colors p other).map fun c => ⟨c, p.amount + other.amount⟩

/-- `Paint.subtract_amount`: reduce the amount, clamped at 0.  Python
mutates `self`; here the updated paint is returned. -/
def Paint.subtract_amount (p : Paint) (amount : ℚ) : Paint :=
  { p with amount := max (p.amount - amount) 0 }

/-- `Paint.split`: returns Python's pair (portion, optional remainder)
together with the post-call value of the receiver (Python mutates
`self` in place in the third branch only). -/
def Paint.split (p : Paint) (split_amount : ℚ) : Paint × Option Paint × Paint :=
  if split_amount ≤ 0 then
    (⟨p.color, 0⟩, none, p)          -- no paint to split; receiver untouched
  else if split_amount ≥ p.amount then
    (⟨p.color, p.amount⟩, none, p)   -- split all paint; receiver NOT reduced
  else
    let p' := p.subtract_amount split_amount
    (⟨p.color, split_amount⟩, some ⟨p'.color, p'.amount⟩, p')

/-- `ColorMixingEnv` state: the beaker list, the target paint, the step
horizon and the step counter. -/
structure ColorMixingEnv where
  beakers : List Paint
  target_paint : Paint
  max_steps : ℕ
  step_count : ℕ
deriving DecidableEq, Repr

/-- `ColorMixingEnv.__init__`: stores the beakers, builds the target
paint, sets `step_count = 0`. -/
def ColorMixingEnv.make (beakers : List Paint) (target_color : Color)
    (target_amount : ℚ) (max_steps : ℕ := 100) : ColorMixingEnv :=
  ⟨beakers, ⟨target_color, target_amount⟩, max_steps, 0⟩

/-- `ColorMixingEnv.reset`: replaces each beaker by a fresh
`Paint(paint.color, paint.amount)` built from the CURRENT beaker list
(`self.beakers`), and zeroes the step counter.  Note the source copies
the current, possibly mutated, beakers — not a saved initial
configuration. -/
def ColorMixingEnv.reset (env : ColorMixingEnv) : ColorMixingEnv :=
  { env with
      beakers := env.beakers.map fun paint => (⟨paint.color, paint.amount⟩ : Paint),
      step_count := 0 }

/-- `ColorMixingEnv._get_observation`: one (R, G, B, amount) row per
beaker, in beaker order. -/
def ColorMixingEnv.get_observation (env : ColorMixingEnv) : List (ℚ × ℚ × ℚ × ℚ) :=
  env.beakers.map fun beaker =>
    ((beaker.color.r : ℚ), (beaker.color.g : ℚ), (beaker.color.b : ℚ), beaker.amount)

/-- `ColorMixingEnv.step`, state-transition part: resolves the two
beaker indices (a bad index is Python's `IndexError`, hence `none`),
splits `ratio/100 * amount` off the source, mixes the portion into the
destination, increments the step counter and computes `done` and
`truncated`.  Python's `to_beaker` variable aliases the list cell, so
after `split` mutates the source in place its value is read from the
updated list (`beakers1`), which matters when the two indices are
equal.  The reward component of the Python return value is
`calculate_reward` of the resulting state (see `step_full` below). -/
def ColorMixingEnv.step (env : ColorMixingEnv) (action : ℕ × ℕ × ℕ) :
    Option (ColorMixingEnv × Bool × Bool) :=
  match action with
  | (from_index, to_index, ratio_index) =>
    match env.beakers[from_index]? with
    | none => none
    | some from_beaker =>
      let amount_ratio : ℚ := (ratio_index : ℚ) / 100
      let amount_to_transfer : ℚ := amount_ratio * from_beaker.amount
      let res := from_beaker.split amount_to_transfer
      let beakers1 := env.beakers.set from_index res.2.2
      match beakers1[to_index]? with
      | none => none
      | some to_beaker =>
        match to_beaker.mix_with res.1 with
        | none => none
        | some mixed_paint =>
          some ({ env with
                    beakers := beakers1.set to_index mixed_paint,
                    step_count := env.step_count + 1 },
                decide (env.step_count + 1 ≥ env.max_steps), false)

/-- Per-beaker distance used by `_calculate_reward`: Euclidean RGB
distance to the target color plus the absolute amount difference. -/
noncomputable def total_distance (beaker target : Paint) : ℝ :=
  Real.sqrt (((beaker.color.r - target.color.r : ℤ) : ℝ) ^ 2 +
             ((beaker.color.g - target.color.g : ℤ) : ℝ) ^ 2 +
             ((beaker.color.b - target.color.b : ℤ) : ℝ) ^ 2) +
  |(beaker.amount : ℝ) - (target.amount : ℝ)|

/-- `ColorMixingEnv._calculate_reward`: the loop keeps the smallest
per-beaker distance, starting from `float('inf')` (`⊤ : EReal`), and
returns its negation. -/
noncomputable def calculate_reward (env : ColorMixingEnv) : EReal :=
  - env.beakers.foldl
      (fun best beaker =>
        if ((total_distance beaker env.target_paint : ℝ) : EReal) < best
        then ((total_distance beaker env.target_paint : ℝ) : EReal) else best)
      ⊤

/-- `ColorMixingEnv.step`, full return value: the new state together
with the reward, `done` and `truncated` as Python returns them. -/
noncomputable def ColorMixingEnv.step_full (env : ColorMixingEnv) (action : ℕ × ℕ × ℕ) :
    Option (ColorMixingEnv × EReal × Bool × Bool) :=
  (env.step action).map fun res => (res.1, calculate_reward res.1, res.2.1, res.2.2)

/-- The environment constructed at module level in `cm_env.py`. -/
def env0 : ColorMixingEnv :=
  ColorMixingEnv.make
    [⟨⟨255, 0, 0⟩, 100⟩, ⟨⟨0, 255, 0⟩, 100⟩, ⟨⟨0, 0, 255⟩, 100⟩]
    ⟨128, 128, 0⟩ 150 100

/-- The state after `env0.step (0, 1, 50)`. -/
def env1 : ColorMixingEnv :=
  ⟨[⟨⟨255, 0, 0⟩, 50⟩, ⟨⟨85, 170, 0⟩, 150⟩, ⟨⟨0, 0, 255⟩, 100⟩],
   ⟨⟨128, 128, 0⟩, 150⟩, 100, 1⟩

/-- Evaluating the module-level scenario: one step of the action
`(from=0, to=1, ratio_index=50)`. -/
theorem env0_step_eval : env0.step (0, 1, 50) = some (env1, false, false) := by
  norm_num [ColorMixingEnv.step, env0, env1, ColorMixingEnv.make, Paint.split,
    Paint.subtract_amount, Paint.mix_with, mix_colors, rgb_to_cmy, cmy_to_rgb, intTrunc]

/-- In every branch of `split` that `step` can reach (the requested
amount is below the paint's amount, nonpositive, or the paint is
empty), the portion's amount plus the receiver's post-call amount is
the original amount. -/
lemma split_amount_conserved (p : Paint) (s : ℚ)
    (h : s < p.amount ∨ s ≤ 0 ∨ p.amount = 0) :
    (p.split s).1.amount + (p.split s).2.2.amount = p.amount := by
  unfold Paint.split
  split_ifs with h1 h2
  · simp
  · rcases h with h | h | h
    · exact absurd h (not_lt.mpr h2)
    · exact absurd h h1
    · simp [h]
  · simp only [Paint.subtract_amount]
    rw [max_eq_left (by rcases h with h | h | h <;> linarith [not_le.mp h1])]
    ring

/-- The portion returned by `split` keeps the receiver's color. -/
lemma split_portion_color (p : Paint) (s : ℚ) : (p.split s).1.color = p.color := by
  unfold Paint.split
  split_ifs <;> rfl

/-- The receiver's post-call value after `split` keeps its color. -/
lemma split_self_color (p : Paint) (s : ℚ) : (p.split s).2.2.color = p.color := by
  unfold Paint.split
  split_ifs <;> rfl

/-- `intTrunc` is the identity on integers. -/
lemma intTrunc_intCast (n : ℤ) : intTrunc (n : ℚ) = n := by
  unfold intTrunc
  split_ifs <;> simp

/-- A successful `mix_with` sums the amounts. -/
lemma mix_with_amount (p q m : Paint) (h : p.mix_with q = some m) :
    m.amount = p.amount + q.amount := by
  unfold Paint.mix_with at h
  cases hmc : mix_colors p q with
  | none => rw [hmc] at h; exact absurd h (by simp)
  | some c =>
    rw [hmc] at h
    simp only [Option.map_some', Option.some.injEq] at h
    rw [← h]

/-- Mixing two paints of the same color (with nonzero total) gives back
that color with the summed amount. -/
lemma mix_with_same_color (c : Color) (a b : ℚ) (h : a + b ≠ 0) :
    Paint.mix_with ⟨c, a⟩ ⟨c, b⟩ = some ⟨c, a + b⟩ := by
  have key : ∀ x : ℤ, ((x : ℚ) * a + (x : ℚ) * b) / (a + b) = (x : ℚ) := by
    intro x
    rw [← mul_add, mul_div_assoc, div_self h, mul_one]
  unfold Paint.mix_with mix_colors rgb_to_cmy cmy_to_rgb
  rw [if_neg h]
  simp only [key, intTrunc_intCast, Option.map_some', Option.some.injEq,
    Paint.mk.injEq, Color.mk.injEq]
  obtain ⟨cr, cg, cb⟩ := c
  simp only [Color.mk.injEq, and_true]
  omega

/-- Setting a list cell to the value it already holds is a no-op. -/
lemma set_getElem_self {α : Type} (l : List α) (i : ℕ) (x : α)
    (h : l[i]? = some x) : l.set i x = l := by
  induction l generalizing i with
  | nil => simp at h
  | cons a l ih =>
    cases i with
    | zero => simp_all
    | succ n =>
      simp only [List.getElem?_cons_succ] at h
      simp [ih n h]

/-- Inversion of a successful `step`: extracts the source beaker, the
destination beaker (read after the in-place split), the mixed paint,
and the exact shape of the result. -/
lemma step_inv (env : ColorMixingEnv) (fi ti r : ℕ) (env' : ColorMixingEnv)
    (d t : Bool) (h : env.step (fi, ti, r) = some (env', d, t)) :
    ∃ fb tb mixed,
      env.beakers[fi]? = some fb ∧
      (env.beakers.set fi ((fb.split ((r : ℚ) / 100 * fb.amount)).2.2))[ti]? = some tb ∧
      tb.mix_with ((fb.split ((r : ℚ) / 100 * fb.amount)).1) = some mixed ∧
      env' = { env with
                 beakers := (env.beakers.set fi
                   ((fb.split ((r : ℚ) / 100 * fb.amount)).2.2)).set ti mixed,
                 step_count := env.step_count + 1 } ∧
      d = decide (env.step_count + 1 ≥ env.max_steps) ∧ t = false := by
  simp only [ColorMixingEnv.step] at h
  split at h
  · exact absurd h (by simp)
  next fb hfb =>
    split at h
    · exact absurd h (by simp)
    next tb htb =>
      split at h
      · exact absurd h (by simp)
      next mixed hmix =>
        simp only [Option.some.injEq, Prod.mk.injEq] at h
        exact ⟨fb, tb, mixed, hfb, htb, hmix, h.1.symm, h.2.1.symm, h.2.2.symm⟩

/-- Sum of the amounts after overwriting one beaker cell. -/
lemma amount_sum_set (l : List Paint) (i : ℕ) (x y : Paint)
    (h : l[i]? = some y) :
    ((l.set i x).map Paint.amount).sum
      = (l.map Paint.amount).sum - y.amount + x.amount := by
  induction l generalizing i with
  | nil => simp at h
  | cons a l ih =>
    cases i with
    | zero =>
      simp only [List.getElem?_cons_zero, Option.some.injEq] at h
      subst h
      simp only [List.set_cons_zero, List.map_cons, List.sum_cons]
      ring
    | succ n =>
      simp only [List.getElem?_cons_succ] at h
      simp only [List.set_cons_succ, List.map_cons, List.sum_cons, ih n h]
      ring

/-- For a valid transfer ratio (`r < 100`), the transfer amount
`r/100 * A` is below `A`, nonpositive, or `A` is zero — exactly the
cases in which `split` conserves paint. -/
lemma transfer_cases (A : ℚ) (r : ℕ) (hr : r < 100) :
    (r : ℚ) / 100 * A < A ∨ (r : ℚ) / 100 * A ≤ 0 ∨ A = 0 := by
  rcases lt_trichotomy A 0 with hA | hA | hA
  · refine Or.inr (Or.inl (mul_nonpos_of_nonneg_of_nonpos ?_ hA.le))
    positivity
  · exact Or.inr (Or.inr hA)
  · refine Or.inl ?_
    have h1 : (r : ℚ) / 100 < 1 := by
      rw [div_lt_one (by norm_num)]
      exact_mod_cast hr
    calc (r : ℚ) / 100 * A < 1 * A := mul_lt_mul_of_pos_right h1 hA
    _ = A := one_mul A

/-- C1.  The spec says `reset()` restores the construction-time beaker
configuration; the code instead copies the CURRENT (mutated) beakers.
Evaluated at the module-level environment: after one step the beaker
amounts are (50, 150, 100), and `reset` keeps exactly those values
(only `step_count` returns to 0) although the construction-time amounts
were (100, 100, 100). -/
theorem C1_reset_keeps_mutated_beakers :
    (env0.step (0, 1, 50)).map (fun res => res.1.reset) =
      some ⟨[⟨⟨255, 0, 0⟩, 50⟩, ⟨⟨85, 170, 0⟩, 150⟩, ⟨⟨0, 0, 255⟩, 100⟩],
            ⟨⟨128, 128, 0⟩, 150⟩, 100, 0⟩ ∧
    env0.beakers.map Paint.amount = [100, 100, 100] := by
  refine ⟨?_, rfl⟩
  rw [env0_step_eval]
  rfl

/-- C2 counterexample: for `Paint((0,0,0), 1)` and requested split
amount 1 (so s = A = 1), the portion's amount plus the receiver's
resulting amount is 2, not 1 — the full-split branch does not reduce
the receiver. -/
theorem C2_counterexample :
    ¬ ((((⟨⟨0, 0, 0⟩, 1⟩ : Paint).split 1).1.amount +
        (((⟨⟨0, 0, 0⟩, 1⟩ : Paint).split 1).2.2).amount) = 1) := by
  norm_num [Paint.split]

/-- C2 (amended): for every Paint with amount A and requested split
amount s with 0 ≤ s, if s < A or A = 0 then the portion's amount plus
the receiver's resulting amount equals A.  (At s = A > 0 the sum is 2A
instead, since the full-split branch leaves the receiver unreduced.) -/
theorem C2_split_decomposition (p : Paint) (s : ℚ) (h0 : 0 ≤ s)
    (h1 : s < p.amount ∨ p.amount = 0) :
    (p.split s).1.amount + (p.split s).2.2.amount = p.amount := by
  apply split_amount_conserved
  rcases h1 with h | h
  · exact Or.inl h
  · exact Or.inr (Or.inr h)

/-- C2 witness: splitting 1 off `Paint((0,0,0), 2)` decomposes the
amount: 1 + 1 = 2. -/
theorem C2_split_decomposition_witness :
    (0 : ℚ) ≤ 1 ∧
    ((((⟨⟨0, 0, 0⟩, 2⟩ : Paint).split 1).1.amount +
      (((⟨⟨0, 0, 0⟩, 2⟩ : Paint).split 1).2.2).amount) = 2) :=
  ⟨by norm_num,
   C2_split_decomposition ⟨⟨0, 0, 0⟩, 2⟩ 1 (by norm_num) (Or.inl (by norm_num))⟩

/-- C4.  Both operands with amount zero make `mix_colors` divide by
zero: Python raises `ZeroDivisionError`, modelled as `none` — there is
no defined result, contrary to the claim. -/
theorem C4_degenerate_mix_crashes :
    mix_colors ⟨⟨0, 0, 0⟩, 0⟩ ⟨⟨0, 0, 0⟩, 0⟩ = none := by
  norm_num [mix_colors]

/-- C8: from the module-level configuration, the action
`(from=0, to=1, ratio_index=50)` leaves beaker 1 holding color
(85, 170, 0) with amount 150. -/
theorem C8_concrete_scenario :
    (env0.step (0, 1, 50)).map (fun res => res.1.beakers[1]?) =
      some (some ⟨⟨85, 170, 0⟩, 150⟩) := by
  rw [env0_step_eval]
  rfl

/-- C3: a step with a valid action (indices in range, ratio index below
100) that completes without error preserves the total amount across all
beakers.  (The non-conserving full-split branch needs
`r/100 * amount ≥ amount` with a positive transfer, impossible for
`r < 100`.) -/
theorem C3_conservation (env : ColorMixingEnv) (fi ti r : ℕ) (hr : r < 100)
    (env' : ColorMixingEnv) (d t : Bool)
    (h : env.step (fi, ti, r) = some (env', d, t)) :
    (env'.beakers.map Paint.amount).sum = (env.beakers.map Paint.amount).sum := by
  obtain ⟨fb, tb, mixed, hfb, htb, hmix, henv, hd, ht⟩ := step_inv env fi ti r env' d t h
  have hsplit := split_amount_conserved fb ((r : ℚ) / 100 * fb.amount)
    (transfer_cases fb.amount r hr)
  have hmixamt := mix_with_amount tb ((fb.split ((r : ℚ) / 100 * fb.amount)).1) mixed hmix
  have h1 := amount_sum_set env.beakers fi ((fb.split ((r : ℚ) / 100 * fb.amount)).2.2) fb hfb
  have h2 := amount_sum_set (env.beakers.set fi ((fb.split ((r : ℚ) / 100 * fb.amount)).2.2))
    ti mixed tb htb
  have hb : env'.beakers
      = (env.beakers.set fi ((fb.split ((r : ℚ) / 100 * fb.amount)).2.2)).set ti mixed := by
    rw [henv]
  rw [hb, h2, h1, hmixamt]
  linarith

/-- C3 witness: the module-level scenario, total 300 ml before and
after the step. -/
theorem C3_conservation_witness :
    env0.step (0, 1, 50) = some (env1, false, false) ∧
    (env1.beakers.map Paint.amount).sum = (env0.beakers.map Paint.amount).sum :=
  ⟨env0_step_eval,
   C3_conservation env0 0 1 50 (by norm_num) env1 false false env0_step_eval⟩

/-- C7: whenever a step completes, `done` is true exactly when the
post-increment step count has reached `max_steps`, `truncated` is
always false, and the step count increments by one. -/
theorem C7_fixed_horizon (env : ColorMixingEnv) (a : ℕ × ℕ × ℕ)
    (env' : ColorMixingEnv) (d t : Bool) (h : env.step a = some (env', d, t)) :
    (d = true ↔ env.step_count + 1 ≥ env.max_steps) ∧ t = false ∧
    env'.step_count = env.step_count + 1 := by
  obtain ⟨fi, ti, r⟩ := a
  obtain ⟨fb, tb, mixed, hfb, htb, hmix, henv, hd, ht⟩ := step_inv env fi ti r env' d t h
  refine ⟨?_, ht, by rw [henv]⟩
  rw [hd]
  simp

/-- C7 witness: one step from the module-level environment leaves the
horizon unreached (`done = false`, `truncated = false`). -/
theorem C7_fixed_horizon_witness :
    env0.step (0, 1, 50) = some (env1, false, false) ∧
    ((false = true ↔ env0.step_count + 1 ≥ env0.max_steps) ∧ false = false ∧
     env1.step_count = env0.step_count + 1) :=
  ⟨env0_step_eval, C7_fixed_horizon env0 (0, 1, 50) env1 false false env0_step_eval⟩

/-- C9: the observation always has one 4-component row per beaker, the
i-th row carrying (R, G, B, amount) of the i-th beaker in order, and
both `reset` and every successful `step` preserve the number of
beakers. -/
theorem C9_observation_shape :
    (∀ env : ColorMixingEnv,
      env.get_observation.length = env.beakers.length ∧
      ∀ i : ℕ, env.get_observation[i]? = env.beakers[i]?.map fun beaker =>
        ((beaker.color.r : ℚ), (beaker.color.g : ℚ), (beaker.color.b : ℚ),
         beaker.amount)) ∧
    (∀ env : ColorMixingEnv, env.reset.beakers.length = env.beakers.length) ∧
    (∀ (env : ColorMixingEnv) (a : ℕ × ℕ × ℕ) (env' : ColorMixingEnv) (d t : Bool),
      env.step a = some (env', d, t) → env'.beakers.length = env.beakers.length) := by
  refine ⟨fun env => ⟨by simp [ColorMixingEnv.get_observation],
    fun i => by simp [ColorMixingEnv.get_observation]⟩,
    fun env => by simp [ColorMixingEnv.reset], ?_⟩
  intro env a env' d t h
  obtain ⟨fi, ti, r⟩ := a
  obtain ⟨fb, tb, mixed, hfb, htb, hmix, henv, hd, ht⟩ := step_inv env fi ti r env' d t h
  have hb : env'.beakers
      = (env.beakers.set fi ((fb.split ((r : ℚ) / 100 * fb.amount)).2.2)).set ti mixed := by
    rw [henv]
  rw [hb]
  simp

/-- C9 witness: shape facts at the module-level environment and its
first step. -/
theorem C9_observation_shape_witness :
    env0.get_observation.length = env0.beakers.length ∧
    env0.get_observation[0]? = some ((255 : ℚ), (0 : ℚ), (0 : ℚ), (100 : ℚ)) ∧
    env0.reset.beakers.length = env0.beakers.length ∧
    env0.step (0, 1, 50) = some (env1, false, false) ∧
    env1.beakers.length = env0.beakers.length := by
  refine ⟨(C9_observation_shape.1 env0).1, ?_, C9_observation_shape.2.1 env0,
    env0_step_eval, C9_observation_shape.2.2 env0 (0, 1, 50) env1 false false env0_step_eval⟩
  rw [(C9_observation_shape.1 env0).2 0]
  rfl

/-- C10: a valid self-transfer (`from_index = to_index`, ratio index
below 100) on a beaker with positive amount leaves every beaker's color
and amount unchanged; only the step counter (and the flags derived from
it) change. -/
theorem C10_self_transfer_noop (env : ColorMixingEnv) (i r : ℕ) (hr : r < 100)
    (fb : Paint) (hfb : env.beakers[i]? = some fb) (hpos : 0 < fb.amount) :
    env.step (i, i, r) = some
      ({ env with step_count := env.step_count + 1 },
       decide (env.step_count + 1 ≥ env.max_steps), false) := by
  obtain ⟨c, A⟩ := fb
  have hA : (0 : ℚ) < A := hpos
  have hi : i < env.beakers.length := (List.getElem?_eq_some.mp hfb).1
  have hsle : (r : ℚ) / 100 * A < A := by
    have h1 : (r : ℚ) / 100 < 1 := by
      rw [div_lt_one (by norm_num)]
      exact_mod_cast hr
    calc (r : ℚ) / 100 * A < 1 * A := mul_lt_mul_of_pos_right h1 hA
    _ = A := one_mul A
  by_cases hs0 : (r : ℚ) / 100 * A ≤ 0
  · -- nonpositive transfer: the first branch of `split`, nothing moves
    have hsplit : (⟨c, A⟩ : Paint).split ((r : ℚ) / 100 * A) = (⟨c, 0⟩, none, ⟨c, A⟩) := by
      unfold Paint.split
      rw [if_pos hs0]
    have hset : env.beakers.set i ⟨c, A⟩ = env.beakers := set_getElem_self _ _ _ hfb
    have hmix : (⟨c, A⟩ : Paint).mix_with ⟨c, 0⟩ = some ⟨c, A⟩ := by
      have h := mix_with_same_color c A 0 (by rw [add_zero]; exact ne_of_gt hA)
      rwa [add_zero] at h
    simp only [ColorMixingEnv.step, hfb, hsplit, hset, hmix]
  · -- positive transfer below the full amount: the third branch
    have hsA : (0 : ℚ) ≤ A - (r : ℚ) / 100 * A := by linarith
    have hsplit : (⟨c, A⟩ : Paint).split ((r : ℚ) / 100 * A)
        = (⟨c, (r : ℚ) / 100 * A⟩, some ⟨c, A - (r : ℚ) / 100 * A⟩,
           ⟨c, A - (r : ℚ) / 100 * A⟩) := by
      unfold Paint.split Paint.subtract_amount
      rw [if_neg hs0, if_neg (not_le.mpr hsle)]
      simp only [max_eq_left hsA]
    have hget1 : (env.beakers.set i (⟨c, A - (r : ℚ) / 100 * A⟩ : Paint))[i]?
        = some ⟨c, A - (r : ℚ) / 100 * A⟩ :=
      List.getElem?_set_eq_of_lt _ hi
    have hmix : (⟨c, A - (r : ℚ) / 100 * A⟩ : Paint).mix_with ⟨c, (r : ℚ) / 100 * A⟩
        = some ⟨c, A⟩ := by
      have h := mix_with_same_color c (A - (r : ℚ) / 100 * A) ((r : ℚ) / 100 * A)
        (by rw [sub_add_cancel]; exact ne_of_gt hA)
      rwa [sub_add_cancel] at h
    have hset2 : (env.beakers.set i (⟨c, A - (r : ℚ) / 100 * A⟩ : Paint)).set i ⟨c, A⟩
        = env.beakers := by
      rw [List.set_set]
      exact set_getElem_self _ _ _ hfb
    simp only [ColorMixingEnv.step, hfb, hsplit, hget1, hmix, hset2]

/-- C10 witness: a self-transfer of half of beaker 0 in the
module-level environment is a no-op on the beakers. -/
theorem C10_self_transfer_noop_witness :
    env0.beakers[0]? = some ⟨⟨255, 0, 0⟩, 100⟩ ∧ (0 : ℚ) < 100 ∧
    env0.step (0, 0, 50) = some
      ({ env0 with step_count := env0.step_count + 1 },
       decide (env0.step_count + 1 ≥ env0.max_steps), false) :=
  ⟨rfl, by norm_num,
   C10_self_transfer_noop env0 0 50 (by norm_num) ⟨⟨255, 0, 0⟩, 100⟩ rfl (by norm_num)⟩

/-- C5: the mixed color is commutative in the two (color, amount)
operands. -/
theorem C5_mix_commutative (c1 c2 : Color) (a1 a2 : ℚ) (h : 0 < a1 + a2) :
    mix_colors ⟨c1, a1⟩ ⟨c2, a2⟩ = mix_colors ⟨c2, a2⟩ ⟨c1, a1⟩ := by
  simp only [mix_colors]
  ring_nf

/-- C5 witness: commutativity at red/green with amounts 1 and 2. -/
theorem C5_mix_commutative_witness :
    (0 : ℚ) < 1 + 2 ∧
    mix_colors ⟨⟨255, 0, 0⟩, 1⟩ ⟨⟨0, 255, 0⟩, 2⟩
      = mix_colors ⟨⟨0, 255, 0⟩, 2⟩ ⟨⟨255, 0, 0⟩, 1⟩ :=
  ⟨by norm_num, C5_mix_commutative ⟨255, 0, 0⟩ ⟨0, 255, 0⟩ 1 2 (by norm_num)⟩

/-- The reward fold never exceeds its initial accumulator. -/
lemma reward_fold_le_init (t : Paint) (l : List Paint) (init : EReal) :
    l.foldl (fun best beaker =>
      if ((total_distance beaker t : ℝ) : EReal) < best
      then ((total_distance beaker t : ℝ) : EReal) else best) init ≤ init := by
  induction l generalizing init with
  | nil => exact le_refl _
  | cons a l ih =>
    simp only [List.foldl_cons]
    refine le_trans (ih _) ?_
    split_ifs with hc
    · exact le_of_lt hc
    · exact le_refl _

/-- The reward fold is a lower bound of every per-beaker distance. -/
lemma reward_fold_le_mem (t : Paint) (l : List Paint) (init : EReal)
    (b : Paint) (hb : b ∈ l) :
    l.foldl (fun best beaker =>
      if ((total_distance beaker t : ℝ) : EReal) < best
      then ((total_distance beaker t : ℝ) : EReal) else best) init
      ≤ ((total_distance b t : ℝ) : EReal) := by
  induction l generalizing init with
  | nil => simp at hb
  | cons a l ih =>
    simp only [List.foldl_cons]
    rcases List.mem_cons.mp hb with rfl | hb'
    · refine le_trans (reward_fold_le_init t l _) ?_
      split_ifs with hc
      · exact le_refl _
      · exact not_lt.mp hc
    · exact ih _ hb'

/-- The reward fold either keeps its initial accumulator or attains the
distance of some beaker in the list. -/
lemma reward_fold_attained (t : Paint) (l : List Paint) (init : EReal) :
    l.foldl (fun best beaker =>
      if ((total_distance beaker t : ℝ) : EReal) < best
      then ((total_distance beaker t : ℝ) : EReal) else best) init = init ∨
    ∃ b ∈ l, l.foldl (fun best beaker =>
      if ((total_distance beaker t : ℝ) : EReal) < best
      then ((total_distance beaker t : ℝ) : EReal) else best) init
        = ((total_distance b t : ℝ) : EReal) := by
  induction l generalizing init with
  | nil => exact Or.inl rfl
  | cons a l ih =>
    simp only [List.foldl_cons]
    by_cases hc : ((total_distance a t : ℝ) : EReal) < init
    · rw [if_pos hc]
      rcases ih ((total_distance a t : ℝ) : EReal) with hf | ⟨b, hb, hf⟩
      · exact Or.inr ⟨a, List.mem_cons_self a l, hf⟩
      · exact Or.inr ⟨b, List.mem_cons_of_mem a hb, hf⟩
    · rw [if_neg hc]
      rcases ih init with hf | ⟨b, hb, hf⟩
      · exact Or.inl hf
      · exact Or.inr ⟨b, List.mem_cons_of_mem a hb, hf⟩

/-- Per-beaker distances are nonnegative. -/
lemma total_distance_nonneg (b t : Paint) : 0 ≤ total_distance b t :=
  add_nonneg (Real.sqrt_nonneg _) (abs_nonneg _)

/-- C6: the reward returned by a completing step is the negation of the
minimum per-beaker (color distance + amount distance) to the target,
and is never positive. -/
theorem C6_reward_minimum (env : ColorMixingEnv) (a : ℕ × ℕ × ℕ)
    (env' : ColorMixingEnv) (rew : EReal) (d t : Bool)
    (h : env.step_full a = some (env', rew, d, t)) :
    rew ≤ 0 ∧ ∃ b ∈ env'.beakers,
      rew = -((total_distance b env'.target_paint : ℝ) : EReal) ∧
      ∀ b' ∈ env'.beakers,
        total_distance b env'.target_paint ≤ total_distance b' env'.target_paint := by
  obtain ⟨fi, ti, r⟩ := a
  unfold ColorMixingEnv.step_full at h
  cases hstep : env.step (fi, ti, r) with
  | none => rw [hstep] at h; exact absurd h (by simp)
  | some res =>
    rw [hstep] at h
    simp only [Option.map_some', Option.some.injEq, Prod.mk.injEq] at h
    obtain ⟨henv', hrew, -, -⟩ := h
    obtain ⟨fb, tb, mixed, hfb, htb, hmix, hres, -, -⟩ :=
      step_inv env fi ti r res.1 res.2.1 res.2.2 (by rw [hstep])
    have hne : env'.beakers ≠ [] := by
      have hfi : fi < env.beakers.length := (List.getElem?_eq_some.mp hfb).1
      have hlen : env'.beakers.length = env.beakers.length := by
        rw [← henv', hres]
        simp
      intro hnil
      rw [hnil] at hlen
      simp at hlen
      omega
    obtain ⟨b0, hb0⟩ := List.exists_mem_of_ne_nil _ hne
    have hrew' : rew = calculate_reward env' := by rw [← hrew, henv']
    rcases reward_fold_attained env'.target_paint env'.beakers ⊤ with hf | ⟨b, hb, hf⟩
    · exfalso
      have h1 := reward_fold_le_mem env'.target_paint env'.beakers ⊤ b0 hb0
      rw [hf] at h1
      exact (EReal.coe_lt_top _).not_le h1
    · have hrb : rew = -((total_distance b env'.target_paint : ℝ) : EReal) := by
        rw [hrew']
        unfold calculate_reward
        rw [hf]
      refine ⟨?_, b, hb, hrb, fun b' hb' => ?_⟩
      · rw [hrb, ← EReal.coe_neg]
        rw [EReal.coe_nonpos]
        linarith [total_distance_nonneg b env'.target_paint]
      · have h2 := reward_fold_le_mem env'.target_paint env'.beakers ⊤ b' hb'
        rw [hf] at h2
        exact EReal.coe_le_coe_iff.mp h2

/-- C6 witness: the reward after the module-level scenario's first step
is nonpositive and attains the negated minimal per-beaker distance. -/
theorem C6_reward_minimum_witness :
    env0.step_full (0, 1, 50) = some (env1, calculate_reward env1, false, false) ∧
    (calculate_reward env1 ≤ 0 ∧ ∃ b ∈ env1.beakers,
      calculate_reward env1 = -((total_distance b env1.target_paint : ℝ) : EReal) ∧
      ∀ b' ∈ env1.beakers,
        total_distance b env1.target_paint ≤ total_distance b' env1.target_paint) := by
  have hstep : env0.step_full (0, 1, 50)
      = some (env1, calculate_reward env1, false, false) := by
    unfold ColorMixingEnv.step_full
    rw [env0_step_eval]
    rfl
  exact ⟨hstep,
    C6_reward_minimum env0 (0, 1, 50) env1 (calculate_reward env1) false false hstep⟩
